import Mathlib

/-!
Verification of the MSA identifier resolution and bucketing engine of
`app/services/document_service.py` (class `DocumentService`).

Python strings are embedded as `List Char`; nullable strings as
`Option (List Char)`.  Python `str.upper`/`str.lower` are modelled on the
ASCII range (as `Char.toUpper`/`Char.toLower`, which match CPython on ASCII);
the regex classes `\s` and `\d` are likewise modelled on their ASCII members.
`datetime` values are embedded as integers counting seconds, so that
`(a - b).days` becomes flooring division by 86400, matching `timedelta.days`.
Monetary amounts are embedded as integers (exact arithmetic; float rounding
is out of scope for these claims).  The database is a list of documents and
`datetime.utcnow()` is an explicit `now` parameter.
-/

set_option maxHeartbeats 1000000

namespace DMSDashboard

/-- ASCII whitespace, the members of the regex class `\s` (and the characters
Python `str.strip` removes) that can occur in ASCII text. -/
def isWsChar (c : Char) : Bool :=
  c == ' ' || c == '\t' || c == '\n' || c == '\r' || c == '\x0b' || c == '\x0c'

/-- The regex class `\d` restricted to ASCII: the decimal digits. -/
def isPyDigit (c : Char) : Bool :=
  48 ≤ c.toNat && c.toNat ≤ 57

/-- The separator class `[\s#:\-]` of `MSA_PATTERN`. -/
def isMsaSep (c : Char) : Bool :=
  isWsChar c || c == '#' || c == ':' || c == '-'

/-- Python `str.strip()`: drop whitespace from both ends. -/
def pyStrip (l : List Char) : List Char :=
  ((l.dropWhile isWsChar).reverse.dropWhile isWsChar).reverse

/-- Python `str.upper()` (ASCII range). -/
def pyUpper (l : List Char) : List Char := l.map Char.toUpper

/-- Python `str.lower()` (ASCII range). -/
def pyLower (l : List Char) : List Char := l.map Char.toLower

/-- Python `str.replace(" ", "")`. -/
def removeSpaces (l : List Char) : List Char := l.filter (fun c => !(c == ' '))

/-- Python `str.replace("_", "-")`. -/
def underscoreToHyphen (l : List Char) : List Char :=
  l.map (fun c => if c == '_' then '-' else c)

/-- The cleanup line of `_normalize_msa_value`:
`value.strip().upper().replace(" ", "").replace("_", "-")`. -/
def cleanValue (l : List Char) : List Char :=
  underscoreToHyphen (removeSpaces (pyUpper (pyStrip l)))

/-- Truthiness of a Python `Optional[str]`: `None` and `""` are falsy. -/
def pyTruthyStr : Option (List Char) → Bool
  | none => false
  | some s => !s.isEmpty

/-- Greedy optional tail group of `MSA_PATTERN` (a dash or slash followed by
2+ digits), matched at the start of `l`; returns the consumed characters
(empty when the optional group does not match). -/
def optSuffix : List Char → List Char
  | [] => []
  | c :: rest =>
    if c == '-' || c == '/' then
      let d2 := rest.takeWhile isPyDigit
      if 2 ≤ d2.length then c :: d2 else []
    else []

/-- Match `MSA_PATTERN` (IGNORECASE) anchored at the start of `l`, returning
the matched substring: `MSA`, then `[\s#:\-]*`, then 3+ digits, then
optionally a dash or slash and 2+ more digits.  The
character classes involved are pairwise disjoint, so the greedy maximal-munch
scan coincides with Python's backtracking regex semantics. -/
def matchMsaAt : List Char → Option (List Char)
  | c1 :: c2 :: c3 :: rest =>
    if c1.toUpper == 'M' && c2.toUpper == 'S' && c3.toUpper == 'A' then
      let seps := rest.takeWhile isMsaSep
      let rest2 := rest.dropWhile isMsaSep
      let d1 := rest2.takeWhile isPyDigit
      let rest3 := rest2.dropWhile isPyDigit
      if 3 ≤ d1.length then
        some (c1 :: c2 :: c3 :: (seps ++ d1 ++ optSuffix rest3))
      else none
    else none
  | _ => none

/-- Match the generic pattern (exactly 4 digits, then a dash or slash, then
3+ digits) anchored at the start of `l`, returning the matched substring. -/
def matchGenericAt : List Char → Option (List Char)
  | a :: b :: c :: d :: e :: rest =>
    if isPyDigit a && isPyDigit b && isPyDigit c && isPyDigit d &&
       (e == '-' || e == '/') then
      let d2 := rest.takeWhile isPyDigit
      if 3 ≤ d2.length then some (a :: b :: c :: d :: e :: d2) else none
    else none
  | _ => none

/-- `re.search`: try the anchored matcher at each position, leftmost first. -/
def searchFrom (f : List Char → Option (List Char)) : List Char → Option (List Char)
  | [] => none
  | c :: rest =>
    match f (c :: rest) with
    | some m => some m
    | none => searchFrom f rest

/-- Python `str.startswith("MSA")`. -/
def startsWithMSA (l : List Char) : Bool := l.take 3 == ['M', 'S', 'A']

/-- `DocumentService._normalize_msa_value` (document_service.py lines
155-171): clean the value, extract the MSA pattern (else the generic
numeric pattern), and prefix `MSA-` when the body does not already start
with `MSA`. -/
def _normalize_msa_value (value : Option (List Char)) : Option (List Char) :=
  if !(pyTruthyStr value) then none
  else
    let cleaned := cleanValue (value.getD [])
    let body? :=
      match searchFrom matchMsaAt cleaned with
      | some m => some m
      | none => searchFrom matchGenericAt cleaned
    match body? with
    | none => none
    | some body =>
      some (if startsWithMSA body then body else 'M' :: 'S' :: 'A' :: '-' :: body)

/-- A persisted document record (`app.models.Document`), restricted to the
fields the MSA engine reads or writes.  Nullable text columns are
`Option (List Char)`, `amount` is an integer and `due_date` an integer
timestamp (see the module comment). -/
structure Document where
  id : List Char
  category : Option (List Char)
  title : Option (List Char)
  msa_number : Option (List Char)
  po_number : Option (List Char)
  invoice_number : Option (List Char)
  linked_to : Option (List Char)
  file_path : Option (List Char)
  amount : Int
  due_date : Option Int
deriving DecidableEq, Repr

/-- One step of the candidate loop of `_resolve_msa_number`: skip falsy
candidates, normalize, return the first truthy normalization. -/
def firstKey : List (Option (List Char)) → Option (List Char)
  | [] => none
  | c :: rest =>
    if pyTruthyStr c then
      let normalized := _normalize_msa_value c
      if pyTruthyStr normalized then normalized else firstKey rest
    else firstKey rest

/-- `DocumentService._resolve_msa_number` (lines 173-195): try the fields in
the fixed order msa_number, po_number, invoice_number, title, linked_to,
file_path. -/
def _resolve_msa_number (document : Document) : Option (List Char) :=
  firstKey
    [document.msa_number, document.po_number, document.invoice_number,
     document.title, document.linked_to, document.file_path]

/-- The MSA part of the reconciliation loop body
(`_load_documents_with_metadata`, lines 46-55): re-normalize the stored
msa_number, overwrite when the normalization is truthy and differs; else fall
back to `_resolve_msa_number`; overwrite again when that key is truthy and
differs.  Returns the updated document and whether it was changed. -/
def reconcileMsa (doc : Document) : Document × Bool :=
  let normalized_stored := _normalize_msa_value doc.msa_number
  let step1 :=
    if pyTruthyStr normalized_stored ∧ normalized_stored ≠ doc.msa_number then
      ({ doc with msa_number := normalized_stored }, normalized_stored, true)
    else (doc, _resolve_msa_number doc, false)
  let doc1 := step1.1
  let msa_key := step1.2.1
  if pyTruthyStr msa_key ∧ doc1.msa_number ≠ msa_key then
    ({ doc1 with msa_number := msa_key }, true)
  else (doc1, step1.2.2)

/-- The title part of the reconciliation loop body (lines 57-66): for PO
categories copy the stripped po_number into the title, for invoice categories
the stripped invoice_number, when non-empty and different. -/
def reconcileTitle (doc : Document) : Document × Bool :=
  if (doc.category = some "Client PO".data ∨ doc.category = some "Vendor PO".data) ∧
     pyTruthyStr doc.po_number then
    let normalized_title := pyStrip (doc.po_number.getD [])
    if normalized_title ≠ [] ∧ doc.title ≠ some normalized_title then
      ({ doc with title := some normalized_title }, true)
    else (doc, false)
  else if (doc.category = some "Client Invoice".data ∨ doc.category = some "Vendor Invoice".data) ∧
          pyTruthyStr doc.invoice_number then
    let normalized_title := pyStrip (doc.invoice_number.getD [])
    if normalized_title ≠ [] ∧ doc.title ≠ some normalized_title then
      ({ doc with title := some normalized_title }, true)
    else (doc, false)
  else (doc, false)

/-- Full reconciliation loop body for one document. -/
def reconcileDoc (doc : Document) : Document × Bool :=
  let step1 := reconcileMsa doc
  let step2 := reconcileTitle step1.1
  (step2.1, step1.2 || step2.2)

/-- The reconciled document list produced by `_load_documents_with_metadata`. -/
def reconciledDocs (documents : List Document) : List Document :=
  (documents.map reconcileDoc).map Prod.fst

/-- `DocumentService._load_documents_with_metadata` (lines 40-71): reconcile
every loaded document and report whether any update was made.  The database
commit is the identity on this pure model. -/
def _load_documents_with_metadata (documents : List Document) (now : Int) :
    List Document × Int × Bool :=
  (reconciledDocs documents, now, (documents.map reconcileDoc).any Prod.snd)

/-- One MSA bucket of `get_msa_buckets` (the dict literal at lines 84-99). -/
structure Bucket where
  msa_number : List Char
  msa_documents : List Document
  po_documents : List Document
  invoice_documents : List Document
  other_documents : List Document
  total_msa_value : Int
  total_po_value : Int
  total_invoice_value : Int
  expires_on : Option Int
  days_until_expiry : Option Int
  expiring_soon : Bool
deriving DecidableEq, Repr

/-- The freshly created bucket `setdefault` inserts for a new key. -/
def emptyBucket (key : List Char) : Bucket :=
  { msa_number := key, msa_documents := [], po_documents := [],
    invoice_documents := [], other_documents := [],
    total_msa_value := 0, total_po_value := 0, total_invoice_value := 0,
    expires_on := none, days_until_expiry := none, expiring_soon := false }

/-- Python `needle in haystack` substring test. -/
def containsSub (needle : List Char) : List Char → Bool
  | [] => needle.isEmpty
  | c :: rest => needle.isPrefixOf (c :: rest) || containsSub needle rest

/-- Case-insensitive substring test `"agreement" in category_lower`
(line 102). -/
def isAgreementCat (doc : Document) : Bool :=
  containsSub "agreement".data (pyLower (doc.category.getD []))

/-- Case-insensitive substring test `"po" in category_lower` (line 104). -/
def isPoCat (doc : Document) : Bool :=
  containsSub "po".data (pyLower (doc.category.getD []))

/-- Case-insensitive substring test `"invoice" in category_lower`
(line 106). -/
def isInvoiceCat (doc : Document) : Bool :=
  containsSub "invoice".data (pyLower (doc.category.getD []))

/-- The classification chain of `get_msa_buckets` (lines 101-109): substring
match on the lowercased category, in the order "agreement", "po", "invoice",
else "other". -/
def classifyDoc (doc : Document) (b : Bucket) : Bucket :=
  if isAgreementCat doc then
    { b with msa_documents := b.msa_documents ++ [doc] }
  else if isPoCat doc then
    { b with po_documents := b.po_documents ++ [doc] }
  else if isInvoiceCat doc then
    { b with invoice_documents := b.invoice_documents ++ [doc] }
  else
    { b with other_documents := b.other_documents ++ [doc] }

/-- The bucket key of one document (lines 79-80):
`msa_key = doc.msa_number or self._resolve_msa_number(doc)` then
`msa_key = self._normalize_msa_value(msa_key)`. -/
def bucketKey (doc : Document) : Option (List Char) :=
  let msa_key := if pyTruthyStr doc.msa_number then doc.msa_number
                 else _resolve_msa_number doc
  _normalize_msa_value msa_key

/-- Insertion-ordered `setdefault` plus classification: update the bucket
stored under `key`, appending a fresh bucket at the end when absent. -/
def updateAssoc : List (List Char × Bucket) → List Char → Document →
    List (List Char × Bucket)
  | [], key, doc => [(key, classifyDoc doc (emptyBucket key))]
  | (k, b) :: rest, key, doc =>
    if k = key then (k, classifyDoc doc b) :: rest
    else (k, b) :: updateAssoc rest key doc

/-- The first loop of `get_msa_buckets` (lines 78-109) for one document:
skip documents whose key is falsy. -/
def assignDoc (l : List (List Char × Bucket)) (doc : Document) :
    List (List Char × Bucket) :=
  match bucketKey doc with
  | none => l
  | some k => if k.isEmpty then l else updateAssoc l k doc

/-- The insertion-ordered key-to-bucket mapping after the first loop. -/
def rawBuckets (docs : List Document) : List (List Char × Bucket) :=
  docs.foldl assignDoc []

/-- Python `sum(doc.amount for doc in docs)`. -/
def amountSum (docs : List Document) : Int := (docs.map Document.amount).sum

/-- Python `min` over a possibly-empty list (`none` when empty). -/
def listMin : List Int → Option Int
  | [] => none
  | x :: xs => some (xs.foldl min x)

/-- The second loop of `get_msa_buckets` (lines 111-127): totals per
sub-list, then expiry fields from the earliest due date of the agreement
documents.  A `datetime` is always truthy, so the inner `if expires_on`
always fires once the due-date list is non-empty. -/
def computeBucketStats (now : Int) (b : Bucket) : Bucket :=
  let b1 := { b with
    total_msa_value := amountSum b.msa_documents,
    total_po_value := amountSum b.po_documents,
    total_invoice_value := amountSum b.invoice_documents }
  match listMin (b.msa_documents.filterMap Document.due_date) with
  | none => b1
  | some expires_on =>
    let delta := Int.fdiv (expires_on - now) 86400
    { b1 with expires_on := some expires_on,
              days_until_expiry := some delta,
              expiring_soon := decide (delta ≤ 60) }

/-- Membership of `relevant_categories` (lines 129, 199). -/
def relevantCategory (c : Option (List Char)) : Bool :=
  decide (c = some "Client PO".data ∨ c = some "Vendor PO".data ∨
          c = some "Client Invoice".data ∨ c = some "Vendor Invoice".data)

/-- The unlinked filter of lines 130-133 and 200-203. -/
def unlinkedTest (d : Document) : Bool :=
  relevantCategory d.category && !(pyTruthyStr (_resolve_msa_number d))

/-- `DocumentService.get_msa_buckets` (lines 73-135): reconcile, bucket by
normalized key, compute totals and expiry, and collect the unlinked PO and
invoice documents. -/
def get_msa_buckets (documents : List Document) (now : Int) :
    List Bucket × List Document :=
  let docs := (_load_documents_with_metadata documents now).1
  ((rawBuckets docs).map (fun p => computeBucketStats now p.2),
   docs.filter unlinkedTest)

/-- `DocumentService.get_unlinked_documents` (lines 197-203). -/
def get_unlinked_documents (documents : List Document) (now : Int) :
    List Document :=
  let docs := (_load_documents_with_metadata documents now).1
  docs.filter unlinkedTest

/-- An alert dict produced by `generate_unlinked_alerts` (lines 144-152). -/
structure Alert where
  id : List Char
  title : List Char
  description : List Char
  level : List Char
  timestamp : Int
  acknowledged : Bool
  document_id : List Char
deriving DecidableEq, Repr

/-- Python `str(x)` on an optional string inside an f-string:
`None` prints as `"None"`. -/
def pyStrOfOpt : Option (List Char) → List Char
  | none => "None".data
  | some s => s

/-- The alert built for one unlinked document (loop body, lines 143-152). -/
def mkUnlinkedAlert (now : Int) (doc : Document) : Alert :=
  let doc_type := if containsSub "PO".data (doc.category.getD [])
                  then "PO".data else "Invoice".data
  { id := "msa-unlinked-".data ++ doc.id,
    title := doc_type ++ " missing MSA link".data,
    description := pyStrOfOpt doc.category ++ " '".data ++ pyStrOfOpt doc.title ++
      "' is not linked to any MSA. Tag the correct agreement to maintain compliance.".data,
    level := "warning".data,
    timestamp := now,
    acknowledged := false,
    document_id := doc.id }

/-- `DocumentService.generate_unlinked_alerts` (lines 139-153). -/
def generate_unlinked_alerts (documents : List Document) (now : Int) :
    List Alert :=
  (get_unlinked_documents documents now).map (mkUnlinkedAlert now)

/-- The request payload of `create_document` (`app.schemas.DocumentCreate`),
restricted to the fields the creation logic reads. -/
structure DocumentCreate where
  category : Option (List Char)
  client : Option (List Char)
  title : Option (List Char)
  msa_number : Option (List Char)
  po_number : Option (List Char)
  invoice_number : Option (List Char)
  linked_to : Option (List Char)
  file_path : Option (List Char)
  amount : Int
  due_date : Option Int
deriving DecidableEq, Repr

/-- `DocumentService.create_document` (lines 18-32): rewrite the category to
"Service Agreement" for PO categories of the three special clients, copy the
remaining fields, and store the normalized msa_number.  The generated uuid is
the explicit `newId` parameter. -/
def create_document (document : DocumentCreate) (newId : List Char) : Document :=
  let client_lower := pyLower (document.client.getD [])
  let normalized_category :=
    if (document.category = some "Client PO".data ∨ document.category = some "Vendor PO".data) ∧
       (client_lower = "google llc".data ∨ client_lower = "platform clients".data ∨
        client_lower = "emb global".data)
    then some "Service Agreement".data
    else document.category
  { id := newId,
    category := normalized_category,
    title := document.title,
    msa_number := _normalize_msa_value document.msa_number,
    po_number := document.po_number,
    invoice_number := document.invoice_number,
    linked_to := document.linked_to,
    file_path := document.file_path,
    amount := document.amount,
    due_date := document.due_date }

/-! ### Derived predicates and fixtures -/

/-- Characters surviving `cleanValue`: no space, no underscore, fixed by
uppercasing. -/
def CleanChar (c : Char) : Prop := c ≠ ' ' ∧ c ≠ '_' ∧ c.toUpper = c

/-- The optional tail of an MSA match: empty, or a dash or slash followed by
2+ digits. -/
def TailShape (tail : List Char) : Prop :=
  tail = [] ∨ ∃ e d2, tail = e :: d2 ∧ (e = '-' ∨ e = '/') ∧
    (∀ c ∈ d2, isPyDigit c = true) ∧ 2 ≤ d2.length

/-- Shape of every `MSA_PATTERN` match: `MSA` (any case), separators, 3+
digits, optional tail. -/
def MsaShape (m : List Char) : Prop :=
  ∃ c1 c2 c3 seps d1 tail,
    m = c1 :: c2 :: c3 :: (seps ++ d1 ++ tail) ∧
    c1.toUpper = 'M' ∧ c2.toUpper = 'S' ∧ c3.toUpper = 'A' ∧
    (∀ c ∈ seps, isMsaSep c = true) ∧
    (∀ c ∈ d1, isPyDigit c = true) ∧ 3 ≤ d1.length ∧
    TailShape tail

/-- Shape of every generic match: 4 digits, a dash or slash, 3+ digits. -/
def GenShape (g : List Char) : Prop :=
  ∃ a b c d e d2, g = a :: b :: c :: d :: e :: d2 ∧
    isPyDigit a = true ∧ isPyDigit b = true ∧ isPyDigit c = true ∧
    isPyDigit d = true ∧ (e = '-' ∨ e = '/') ∧
    (∀ x ∈ d2, isPyDigit x = true) ∧ 3 ≤ d2.length

/-- The canonical shape of every non-null normalizer output: a literal
uppercase `MSA`, separator characters, 3+ digits, optional dash-or-slash
digit tail. -/
def CanonicalShape (y : List Char) : Prop :=
  ∃ seps d1 tail,
    y = 'M' :: 'S' :: 'A' :: (seps ++ d1 ++ tail) ∧
    (∀ c ∈ seps, isMsaSep c = true) ∧
    (∀ c ∈ d1, isPyDigit c = true) ∧ 3 ≤ d1.length ∧
    TailShape tail

/-- Spec-side candidate handling (section 4.2 of the spec), for comparison
with `_resolve_msa_number`: a falsy candidate contributes nothing, otherwise
its normalization. -/
def specCandidate (c : Option (List Char)) : Option (List Char) :=
  if pyTruthyStr c then _normalize_msa_value c else none

/-- Spec-side resolver (section 4.2 of the spec), for comparison with
`_resolve_msa_number`: the first non-null candidate normalization in the
fixed field order. -/
def specResolve (doc : Document) : Option (List Char) :=
  (specCandidate doc.msa_number).orElse fun _ =>
    (specCandidate doc.po_number).orElse fun _ =>
      (specCandidate doc.invoice_number).orElse fun _ =>
        (specCandidate doc.title).orElse fun _ =>
          (specCandidate doc.linked_to).orElse fun _ =>
            specCandidate doc.file_path

/-- Buckets as they appear during the first loop of `get_msa_buckets`:
expiry fields still at their defaults. -/
def RawOk (b : Bucket) : Prop :=
  b.expires_on = none ∧ b.days_until_expiry = none ∧ b.expiring_soon = false

/-- Correct placement of every document in a bucket's four sub-lists,
reflecting the "agreement", "po", "invoice", "other" precedence chain. -/
def ClassOk (b : Bucket) : Prop :=
  (∀ d ∈ b.msa_documents, isAgreementCat d = true) ∧
  (∀ d ∈ b.po_documents, isAgreementCat d = false ∧ isPoCat d = true) ∧
  (∀ d ∈ b.invoice_documents,
    isAgreementCat d = false ∧ isPoCat d = false ∧ isInvoiceCat d = true) ∧
  (∀ d ∈ b.other_documents,
    isAgreementCat d = false ∧ isPoCat d = false ∧ isInvoiceCat d = false)

/-- Fixture for claim C4: msa_number null, po_number `"PO-99"`, title
`"MSA-2025-777"`. -/
def exampleResolverDoc : Document :=
  { id := "doc-r".data, category := some "Client PO".data,
    title := some "MSA-2025-777".data, msa_number := none,
    po_number := some "PO-99".data, invoice_number := none,
    linked_to := none, file_path := none, amount := 0, due_date := none }

/-- Fixture for claims C5 and C6: a Service Agreement due 45 days
(3888000 seconds) after time 0, keyed `MSA-2025-001`. -/
def exampleAgreementDoc : Document :=
  { id := "doc-a".data, category := some "Service Agreement".data,
    title := some "Master".data, msa_number := some "MSA-2025-001".data,
    po_number := none, invoice_number := none, linked_to := none,
    file_path := none, amount := 0, due_date := some 3888000 }

/-- Fixture for claims C5 and C6: a Client PO of amount 1000 sharing the key
`MSA-2025-001`. -/
def examplePoDoc : Document :=
  { id := "doc-b".data, category := some "Client PO".data,
    title := some "Order".data, msa_number := some "MSA-2025-001".data,
    po_number := none, invoice_number := none, linked_to := none,
    file_path := none, amount := 1000, due_date := none }

/-- The single bucket produced by the C5/C6 fixture at `now = 0`. -/
def exampleBucket : Bucket :=
  { msa_number := "MSA-2025-001".data,
    msa_documents := [exampleAgreementDoc],
    po_documents := [examplePoDoc],
    invoice_documents := [], other_documents := [],
    total_msa_value := 0, total_po_value := 1000, total_invoice_value := 0,
    expires_on := some 3888000, days_until_expiry := some 45,
    expiring_soon := true }

/-- Fixture for claims C7 and C9: a Client Invoice none of whose fields
contains a recognizable MSA pattern. -/
def exampleUnlinkedDoc : Document :=
  { id := "doc-u".data, category := some "Client Invoice".data,
    title := some "INV-9".data, msa_number := none, po_number := none,
    invoice_number := some "INV-9".data, linked_to := none,
    file_path := none, amount := 5, due_date := none }

/-- Fixture for claim C8: a document whose stored msa_number is already
canonical. -/
def exampleCanonicalDoc : Document :=
  { id := "doc-c".data, category := some "Service Agreement".data,
    title := some "Master".data, msa_number := some "MSA-2025-001".data,
    po_number := none, invoice_number := none, linked_to := none,
    file_path := none, amount := 0, due_date := none }

/-- Fixture for claim C10: a Client PO creation request for client
`"Google LLC"`. -/
def exampleCreateRequest : DocumentCreate :=
  { category := some "Client PO".data, client := some "Google LLC".data,
    title := some "Order".data, msa_number := some "msa#2025-001".data,
    po_number := some "PO-1".data, invoice_number := none,
    linked_to := none, file_path := none, amount := 10, due_date := none }

/-! ### Supporting lemmas -/

theorem toUpper_toUpper (c : Char) : c.toUpper.toUpper = c.toUpper := by
  unfold Char.toUpper
  by_cases h : c.toNat ≥ 97 ∧ c.toNat ≤ 122
  · simp only [h, if_true]
    obtain ⟨h1, h2⟩ := h
    set n := c.toNat with hn
    interval_cases n <;> simp
  · simp only [h, if_false]

theorem digit_not_sep {c : Char} (h : isPyDigit c = true) : isMsaSep c = false := by
  by_contra hs
  have hs' : isMsaSep c = true := by
    cases h' : isMsaSep c
    · exact absurd h' hs
    · rfl
  simp only [isMsaSep, isWsChar, Bool.or_eq_true, beq_iff_eq, or_assoc] at hs'
  rcases hs' with h'|h'|h'|h'|h'|h'|h'|h'|h' <;>
    (subst h'; simp [isPyDigit] at h)

theorem digit_not_ws {c : Char} (h : isPyDigit c = true) : isWsChar c = false := by
  by_contra hs
  have hs' : isWsChar c = true := by
    cases h' : isWsChar c
    · exact absurd h' hs
    · rfl
  simp only [isWsChar, Bool.or_eq_true, beq_iff_eq, or_assoc] at hs'
  rcases hs' with h'|h'|h'|h'|h'|h' <;>
    (subst h'; simp [isPyDigit] at h)

theorem cleanValue_cleanChar {x : List Char} : ∀ c ∈ cleanValue x, CleanChar c := by
  intro c hc
  unfold cleanValue underscoreToHyphen at hc
  rw [List.mem_map] at hc
  obtain ⟨c', hc', hceq⟩ := hc
  unfold removeSpaces at hc'
  rw [List.mem_filter] at hc'
  obtain ⟨hmem, hnsp⟩ := hc'
  unfold pyUpper at hmem
  rw [List.mem_map] at hmem
  obtain ⟨c'', _, hup⟩ := hmem
  have hfix : c'.toUpper = c' := by rw [← hup]; exact toUpper_toUpper c''
  by_cases hund : c' = '_'
  · subst hund
    simp only [beq_self_eq_true, if_true] at hceq
    subst hceq
    exact ⟨by decide, by decide, by decide⟩
  · have : (c' == '_') = false := by
      cases h' : c' == '_'
      · rfl
      · exact absurd (by simpa using h') hund
    rw [this] at hceq
    simp only [Bool.false_eq_true, if_false] at hceq
    subst hceq
    refine ⟨?_, hund, hfix⟩
    intro hsp
    subst hsp
    simp at hnsp

theorem map_id_of_mem {α : Type} {f : α → α} {l : List α}
    (h : ∀ c ∈ l, f c = c) : l.map f = l := by
  induction l with
  | nil => rfl
  | cons a t ih =>
    simp only [List.map_cons, h a (List.mem_cons_self a t),
      ih (fun c hc => h c (List.mem_cons_of_mem a hc))]

theorem takeWhile_all_append {p : Char → Bool} {l₁ l₂ : List Char}
    (h : ∀ c ∈ l₁, p c = true) :
    List.takeWhile p (l₁ ++ l₂) = l₁ ++ List.takeWhile p l₂ := by
  induction l₁ with
  | nil => simp
  | cons a t ih =>
    simp only [List.cons_append, List.takeWhile_cons,
      h a (List.mem_cons_self a t), if_true]
    rw [ih (fun c hc => h c (List.mem_cons_of_mem a hc))]

theorem dropWhile_all_append {p : Char → Bool} {l₁ l₂ : List Char}
    (h : ∀ c ∈ l₁, p c = true) :
    List.dropWhile p (l₁ ++ l₂) = List.dropWhile p l₂ := by
  induction l₁ with
  | nil => simp
  | cons a t ih =>
    simp only [List.cons_append, List.dropWhile_cons,
      h a (List.mem_cons_self a t), if_true]
    exact ih (fun c hc => h c (List.mem_cons_of_mem a hc))

theorem optSuffix_shape (l : List Char) :
    TailShape (optSuffix l) ∧ ∀ c ∈ optSuffix l, c ∈ l := by
  match l with
  | [] => exact ⟨Or.inl rfl, by intro c hc; simp [optSuffix] at hc⟩
  | c :: rest =>
    have heq : optSuffix (c :: rest) =
        if (c == '-' || c == '/') = true then
          (if 2 ≤ (rest.takeWhile isPyDigit).length
           then c :: rest.takeWhile isPyDigit else [])
        else [] := rfl
    rw [heq]
    by_cases hc : (c == '-' || c == '/') = true
    · rw [if_pos hc]
      by_cases hlen : 2 ≤ (rest.takeWhile isPyDigit).length
      · rw [if_pos hlen]
        constructor
        · refine Or.inr ⟨c, rest.takeWhile isPyDigit, rfl, ?_, ?_, hlen⟩
          · rcases Bool.or_eq_true _ _ |>.mp hc with h | h
            · exact Or.inl (by simpa using h)
            · exact Or.inr (by simpa using h)
          · intro x hx; exact List.mem_takeWhile_imp hx
        · intro x hx
          rcases List.mem_cons.mp hx with h | h
          · exact h ▸ List.mem_cons_self c rest
          · exact List.mem_cons_of_mem c ((List.takeWhile_sublist _).subset h)
      · rw [if_neg hlen]
        exact ⟨Or.inl rfl, by intro x hx; simp at hx⟩
    · rw [if_neg hc]
      exact ⟨Or.inl rfl, by intro x hx; simp at hx⟩

theorem matchMsaAt_shape {l m : List Char} (h : matchMsaAt l = some m) :
    MsaShape m ∧ ∀ c ∈ m, c ∈ l := by
  match l with
  | [] => simp [matchMsaAt] at h
  | [c1] => simp [matchMsaAt] at h
  | [c1, c2] => simp [matchMsaAt] at h
  | c1 :: c2 :: c3 :: rest =>
    have heq : matchMsaAt (c1 :: c2 :: c3 :: rest) =
        if (c1.toUpper == 'M' && c2.toUpper == 'S' && c3.toUpper == 'A') = true then
          (if 3 ≤ ((rest.dropWhile isMsaSep).takeWhile isPyDigit).length then
            some (c1 :: c2 :: c3 :: (rest.takeWhile isMsaSep ++
              (rest.dropWhile isMsaSep).takeWhile isPyDigit ++
              optSuffix ((rest.dropWhile isMsaSep).dropWhile isPyDigit)))
          else none)
        else none := rfl
    rw [heq] at h
    by_cases hmsa : (c1.toUpper == 'M' && c2.toUpper == 'S' && c3.toUpper == 'A') = true
    · rw [if_pos hmsa] at h
      by_cases hlen : 3 ≤ ((rest.dropWhile isMsaSep).takeWhile isPyDigit).length
      · rw [if_pos hlen] at h
        injection h with h
        subst h
        obtain ⟨htail, htmem⟩ := optSuffix_shape ((rest.dropWhile isMsaSep).dropWhile isPyDigit)
        simp only [Bool.and_eq_true, beq_iff_eq] at hmsa
        constructor
        · exact ⟨c1, c2, c3, _, _, _, rfl, hmsa.1.1, hmsa.1.2, hmsa.2,
            fun c hc => List.mem_takeWhile_imp hc,
            fun c hc => List.mem_takeWhile_imp hc, hlen, htail⟩
        · intro c hc
          rcases List.mem_cons.mp hc with h | hc
          · exact h ▸ List.mem_cons_self _ _
          rcases List.mem_cons.mp hc with h | hc
          · exact h ▸ List.mem_cons_of_mem _ (List.mem_cons_self _ _)
          rcases List.mem_cons.mp hc with h | hc
          · exact h ▸ List.mem_cons_of_mem _ (List.mem_cons_of_mem _ (List.mem_cons_self _ _))
          · refine List.mem_cons_of_mem _ (List.mem_cons_of_mem _ (List.mem_cons_of_mem _ ?_))
            rcases List.mem_append.mp hc with hc | hc
            · rcases List.mem_append.mp hc with hc | hc
              · exact (List.takeWhile_sublist _).subset hc
              · exact (List.dropWhile_sublist isMsaSep).subset
                  ((List.takeWhile_sublist _).subset hc)
            · exact (List.dropWhile_sublist isMsaSep).subset
                ((List.dropWhile_sublist isPyDigit).subset (htmem c hc))
      · rw [if_neg hlen] at h; exact absurd h (by simp)
    · rw [if_neg hmsa] at h; exact absurd h (by simp)

theorem matchGenericAt_shape {l g : List Char} (h : matchGenericAt l = some g) :
    GenShape g ∧ ∀ c ∈ g, c ∈ l := by
  match l with
  | [] => simp [matchGenericAt] at h
  | [a] => simp [matchGenericAt] at h
  | [a, b] => simp [matchGenericAt] at h
  | [a, b, c] => simp [matchGenericAt] at h
  | [a, b, c, d] => simp [matchGenericAt] at h
  | a :: b :: c :: d :: e :: rest =>
    have heq : matchGenericAt (a :: b :: c :: d :: e :: rest) =
        if (isPyDigit a && isPyDigit b && isPyDigit c && isPyDigit d &&
            (e == '-' || e == '/')) = true then
          (if 3 ≤ (rest.takeWhile isPyDigit).length then
            some (a :: b :: c :: d :: e :: rest.takeWhile isPyDigit)
          else none)
        else none := rfl
    rw [heq] at h
    by_cases hg : (isPyDigit a && isPyDigit b && isPyDigit c && isPyDigit d &&
        (e == '-' || e == '/')) = true
    · rw [if_pos hg] at h
      by_cases hlen : 3 ≤ (rest.takeWhile isPyDigit).length
      · rw [if_pos hlen] at h
        injection h with h
        subst h
        simp only [Bool.and_eq_true, Bool.or_eq_true, beq_iff_eq] at hg
        constructor
        · exact ⟨a, b, c, d, e, _, rfl, hg.1.1.1.1, hg.1.1.1.2, hg.1.1.2, hg.1.2,
            hg.2, fun x hx => List.mem_takeWhile_imp hx, hlen⟩
        · intro x hx
          rcases List.mem_cons.mp hx with h | hx
          · exact h ▸ List.mem_cons_self _ _
          rcases List.mem_cons.mp hx with h | hx
          · exact h ▸ List.mem_cons_of_mem _ (List.mem_cons_self _ _)
          rcases List.mem_cons.mp hx with h | hx
          · exact h ▸ List.mem_cons_of_mem _ (List.mem_cons_of_mem _ (List.mem_cons_self _ _))
          rcases List.mem_cons.mp hx with h | hx
          · exact h ▸ List.mem_cons_of_mem _ (List.mem_cons_of_mem _
              (List.mem_cons_of_mem _ (List.mem_cons_self _ _)))
          rcases List.mem_cons.mp hx with h | hx
          · exact h ▸ List.mem_cons_of_mem _ (List.mem_cons_of_mem _
              (List.mem_cons_of_mem _ (List.mem_cons_of_mem _ (List.mem_cons_self _ _))))
          · exact List.mem_cons_of_mem _ (List.mem_cons_of_mem _
              (List.mem_cons_of_mem _ (List.mem_cons_of_mem _
                (List.mem_cons_of_mem _ ((List.takeWhile_sublist _).subset hx)))))
      · rw [if_neg hlen] at h; exact absurd h (by simp)
    · rw [if_neg hg] at h; exact absurd h (by simp)

theorem searchFrom_some {f : List Char → Option (List Char)} {l m : List Char}
    (h : searchFrom f l = some m) : ∃ t, t <:+ l ∧ f t = some m := by
  induction l with
  | nil => simp [searchFrom] at h
  | cons c rest ih =>
    have heq : searchFrom f (c :: rest) =
        match f (c :: rest) with
        | some m => some m
        | none => searchFrom f rest := rfl
    rw [heq] at h
    cases hf : f (c :: rest) with
    | some m' =>
      rw [hf] at h
      injection h with h
      exact ⟨c :: rest, List.suffix_refl _, hf.trans (by rw [h])⟩
    | none =>
      rw [hf] at h
      obtain ⟨t, hsuf, hft⟩ := ih h
      exact ⟨t, hsuf.trans (List.suffix_cons c rest), hft⟩

theorem rev_head_not_ws {pre db : List Char} (hne : db ≠ [])
    (hd : ∀ c ∈ db, isPyDigit c = true) :
    ∃ c cs, (pre ++ db).reverse = c :: cs ∧ isWsChar c = false := by
  cases hrev : db.reverse with
  | nil => exact absurd (List.reverse_eq_nil_iff.mp hrev) hne
  | cons c cs =>
    have hc : c ∈ db := by
      have h' : c ∈ db.reverse := by rw [hrev]; exact List.mem_cons_self _ _
      simpa [List.mem_reverse] using h'
    exact ⟨c, cs ++ pre.reverse,
      by rw [List.reverse_append, hrev, List.cons_append],
      digit_not_ws (hd c hc)⟩

theorem pyStrip_eq_self {l : List Char}
    (h1 : ∃ c cs, l = c :: cs ∧ isWsChar c = false)
    (h2 : ∃ c cs, l.reverse = c :: cs ∧ isWsChar c = false) :
    pyStrip l = l := by
  obtain ⟨c, cs, hl, hc⟩ := h1
  obtain ⟨c', cs', hr, hc'⟩ := h2
  have hd1 : l.dropWhile isWsChar = l := by
    rw [hl, List.dropWhile_cons, hc]; simp
  have hd2 : l.reverse.dropWhile isWsChar = l.reverse := by
    rw [hr, List.dropWhile_cons, hc']; simp [← hr]
  unfold pyStrip
  rw [hd1, hd2, List.reverse_reverse]

theorem startsWithMSA_msa (rest : List Char) :
    startsWithMSA ('M' :: 'S' :: 'A' :: rest) = true := rfl

theorem startsWithMSA_digit {a b c : Char} {rest : List Char}
    (ha : isPyDigit a = true) : startsWithMSA (a :: b :: c :: rest) = false := by
  cases h : startsWithMSA (a :: b :: c :: rest)
  · rfl
  · exfalso
    unfold startsWithMSA at h
    have ht : List.take 3 (a :: b :: c :: rest) = [a, b, c] := rfl
    rw [ht] at h
    have he : ([a, b, c] : List Char) = ['M', 'S', 'A'] := by
      exact beq_iff_eq.mp h
    have ha' : a = 'M' := by injection he
    subst ha'
    exact absurd ha (by decide)

theorem matchMsaAt_of_canonical {y : List Char} (h : CanonicalShape y) :
    matchMsaAt y = some y := by
  obtain ⟨seps, d1, tail, hy, hseps, hd1, hlen, htail⟩ := h
  subst hy
  obtain ⟨x, d1', hd1eq⟩ : ∃ x d1', d1 = x :: d1' := by
    cases d1 with
    | nil => simp at hlen
    | cons x d1' => exact ⟨x, d1', rfl⟩
  have hxdig : isPyDigit x = true :=
    hd1 x (by rw [hd1eq]; exact List.mem_cons_self _ _)
  have h1 : (seps ++ d1 ++ tail).takeWhile isMsaSep = seps := by
    rw [List.append_assoc, takeWhile_all_append hseps, hd1eq, List.cons_append,
      List.takeWhile_cons, digit_not_sep hxdig]
    simp
  have h2 : (seps ++ d1 ++ tail).dropWhile isMsaSep = d1 ++ tail := by
    rw [List.append_assoc, dropWhile_all_append hseps, hd1eq, List.cons_append,
      List.dropWhile_cons, digit_not_sep hxdig]
    simp [hd1eq]
  have htake : (d1 ++ tail).takeWhile isPyDigit = d1 := by
    rcases htail with htail | ⟨e, d2, htl, he, _, _⟩
    · subst htail; rw [List.append_nil]; exact List.takeWhile_eq_self_iff.mpr hd1
    · subst htl
      rw [takeWhile_all_append hd1, List.takeWhile_cons]
      have hef : isPyDigit e = false := by
        rcases he with he | he <;> (subst he; decide)
      rw [hef]
      simp
  have hdrop : (d1 ++ tail).dropWhile isPyDigit = tail := by
    rcases htail with htail | ⟨e, d2, htl, he, _, _⟩
    · subst htail
      rw [List.append_nil, List.dropWhile_eq_nil_iff.mpr]
      intro c hc; exact hd1 c hc
    · subst htl
      rw [dropWhile_all_append hd1, List.dropWhile_cons]
      have hef : isPyDigit e = false := by
        rcases he with he | he <;> (subst he; decide)
      rw [hef]
      simp
  have hopt : optSuffix tail = tail := by
    rcases htail with htail | ⟨e, d2, htl, he, hd2, hlen2⟩
    · subst htail; rfl
    · subst htl
      have heq : optSuffix (e :: d2) =
          if (e == '-' || e == '/') = true then
            (if 2 ≤ (d2.takeWhile isPyDigit).length
             then e :: d2.takeWhile isPyDigit else [])
          else [] := rfl
      have hcond : (e == '-' || e == '/') = true := by
        rcases he with he | he <;> (subst he; decide)
      have htw : d2.takeWhile isPyDigit = d2 := List.takeWhile_eq_self_iff.mpr hd2
      rw [heq, if_pos hcond, htw, if_pos hlen2]
  have heq : matchMsaAt ('M' :: 'S' :: 'A' :: (seps ++ d1 ++ tail)) =
      if ((Char.toUpper 'M' == 'M') && (Char.toUpper 'S' == 'S') &&
          (Char.toUpper 'A' == 'A')) = true then
        (if 3 ≤ (((seps ++ d1 ++ tail).dropWhile isMsaSep).takeWhile isPyDigit).length then
          some ('M' :: 'S' :: 'A' :: ((seps ++ d1 ++ tail).takeWhile isMsaSep ++
            ((seps ++ d1 ++ tail).dropWhile isMsaSep).takeWhile isPyDigit ++
            optSuffix (((seps ++ d1 ++ tail).dropWhile isMsaSep).dropWhile isPyDigit)))
        else none)
      else none := rfl
  rw [heq, if_pos (by decide), h2, htake, hdrop, if_pos hlen, h1, hopt]

/-- Structure of every non-null output of the normalizer: canonical shape and
clean characters. -/
theorem norm_shape {v : Option (List Char)} {y : List Char}
    (h : _normalize_msa_value v = some y) :
    CanonicalShape y ∧ ∀ c ∈ y, CleanChar c := by
  unfold _normalize_msa_value at h
  by_cases htr : (!(pyTruthyStr v)) = true
  · rw [if_pos htr] at h; cases h
  · rw [if_neg htr] at h
    dsimp only [] at h
    cases hs : searchFrom matchMsaAt (cleanValue (v.getD [])) with
    | some m =>
      rw [hs] at h
      dsimp only [] at h
      obtain ⟨t, hsuf, hft⟩ := searchFrom_some hs
      obtain ⟨⟨c1, c2, c3, seps, d1, tail, hm, hu1, hu2, hu3, hseps, hd1, hlen, htail⟩,
        hmem⟩ := matchMsaAt_shape hft
      have hclean : ∀ c ∈ m, CleanChar c := fun c hc =>
        cleanValue_cleanChar c (hsuf.subset (hmem c hc))
      have hc1m : c1 ∈ m := by rw [hm]; exact List.mem_cons_self _ _
      have hc2m : c2 ∈ m := by rw [hm]; simp
      have hc3m : c3 ∈ m := by rw [hm]; simp
      have hc1 : c1 = 'M' := by rw [← (hclean c1 hc1m).2.2, hu1]
      have hc2 : c2 = 'S' := by rw [← (hclean c2 hc2m).2.2, hu2]
      have hc3 : c3 = 'A' := by rw [← (hclean c3 hc3m).2.2, hu3]
      subst hc1; subst hc2; subst hc3
      rw [hm, startsWithMSA_msa] at h
      simp only [if_true] at h
      injection h with h
      subst h
      rw [hm] at hclean
      exact ⟨⟨seps, d1, tail, rfl, hseps, hd1, hlen, htail⟩, hclean⟩
    | none =>
      rw [hs] at h
      cases hg : searchFrom matchGenericAt (cleanValue (v.getD [])) with
      | none => rw [hg] at h; cases h
      | some g =>
        rw [hg] at h
        dsimp only [] at h
        obtain ⟨t, hsuf, hft⟩ := searchFrom_some hg
        obtain ⟨⟨a, b, c, d, e, d2, hgeq, hda, hdb, hdc, hdd, he, hd2, hlen2⟩, hmem⟩ :=
          matchGenericAt_shape hft
        have hclean : ∀ x ∈ g, CleanChar x := fun x hx =>
          cleanValue_cleanChar x (hsuf.subset (hmem x hx))
        have hsw : startsWithMSA g = false := by
          rw [hgeq]; exact startsWithMSA_digit hda
        rw [hsw] at h
        simp only [Bool.false_eq_true, if_false] at h
        injection h with h
        subst h
        constructor
        · refine ⟨['-'], [a, b, c, d], e :: d2, ?_, ?_, ?_, by simp, ?_⟩
          · rw [hgeq]; rfl
          · intro x hx
            have : x = '-' := by simpa using hx
            subst this; decide
          · intro x hx
            rcases List.mem_cons.mp hx with h' | hx
            · exact h' ▸ hda
            rcases List.mem_cons.mp hx with h' | hx
            · exact h' ▸ hdb
            rcases List.mem_cons.mp hx with h' | hx
            · exact h' ▸ hdc
            · have : x = d := by simpa using hx
              exact this ▸ hdd
          · exact Or.inr ⟨e, d2, rfl, he, hd2, by omega⟩
        · intro x hx
          rcases List.mem_cons.mp hx with h' | hx
          · exact h' ▸ ⟨by decide, by decide, by decide⟩
          rcases List.mem_cons.mp hx with h' | hx
          · exact h' ▸ ⟨by decide, by decide, by decide⟩
          rcases List.mem_cons.mp hx with h' | hx
          · exact h' ▸ ⟨by decide, by decide, by decide⟩
          rcases List.mem_cons.mp hx with h' | hx
          · exact h' ▸ ⟨by decide, by decide, by decide⟩
          · exact hclean x hx

/-- The normalizer fixes any list that has canonical shape and clean
characters. -/
theorem norm_fixes {y : List Char} (hshape : CanonicalShape y)
    (hclean : ∀ c ∈ y, CleanChar c) : _normalize_msa_value (some y) = some y := by
  have hmatch : matchMsaAt y = some y := matchMsaAt_of_canonical hshape
  obtain ⟨seps, d1, tail, hy, hseps, hd1, hlen, htail⟩ := hshape
  have hhead : ∃ c cs, y = c :: cs ∧ isWsChar c = false :=
    ⟨'M', 'S' :: 'A' :: (seps ++ d1 ++ tail), hy, by decide⟩
  have hyr : ∃ c cs, y.reverse = c :: cs ∧ isWsChar c = false := by
    rcases htail with htl | ⟨e, d2, htl, he, hd2, hlen2⟩
    · subst htl
      have hd1ne : d1 ≠ [] := by
        intro hh; rw [hh] at hlen; simp at hlen
      have hsplit : y = ('M' :: 'S' :: 'A' :: seps) ++ d1 := by rw [hy]; simp
      rw [hsplit]; exact rev_head_not_ws hd1ne hd1
    · subst htl
      have hd2ne : d2 ≠ [] := by
        intro hh; rw [hh] at hlen2; simp at hlen2
      have hsplit : y = ('M' :: 'S' :: 'A' :: (seps ++ d1 ++ [e])) ++ d2 := by
        rw [hy]; simp
      rw [hsplit]; exact rev_head_not_ws hd2ne hd2
  have hstrip : pyStrip y = y := pyStrip_eq_self hhead hyr
  have hupper : pyUpper y = y := map_id_of_mem (fun c hc => (hclean c hc).2.2)
  have hnospace : removeSpaces y = y := List.filter_eq_self.mpr (fun c hc => by
    have h' := (hclean c hc).1
    simp [h'])
  have hnound : underscoreToHyphen y = y := map_id_of_mem (fun c hc => by
    have h' := (hclean c hc).2.1
    simp [underscoreToHyphen, h'])
  have hcv : cleanValue y = y := by
    unfold cleanValue; rw [hstrip, hupper, hnospace, hnound]
  have hyne : y ≠ [] := by rw [hy]; simp
  have htruthy : pyTruthyStr (some y) = true := by
    unfold pyTruthyStr
    simp [List.isEmpty_iff, hyne]
  have hsearch : searchFrom matchMsaAt y = some y := by
    conv_lhs => rw [hy]
    show (match matchMsaAt ('M' :: 'S' :: 'A' :: (seps ++ d1 ++ tail)) with
          | some m => some m
          | none => searchFrom matchMsaAt ('S' :: 'A' :: (seps ++ d1 ++ tail))) = some y
    rw [← hy, hmatch]
  have hsw : startsWithMSA y = true := by rw [hy]; exact startsWithMSA_msa _
  unfold _normalize_msa_value
  rw [htruthy]
  simp only [Bool.not_true, Bool.false_eq_true, if_false]
  dsimp only [Option.getD]
  rw [hcv, hsearch]
  dsimp only []
  rw [hsw]
  simp

/-! ### Claims C1, C2, C3: the identifier normalizer -/

/-- C1 counterexample.  The claim states that every non-null normalizer
output has a `-` (not `#`, `:`, or nothing) between the `MSA` prefix and the
first digit group.  On input `"msa#2025-001"` the normalizer returns
`"MSA#2025-001"`, whose separator is `#`: the matched substring is kept
verbatim and a hyphen is only ever added when the body does not already
start with `MSA`. -/
theorem C1_counterexample :
    _normalize_msa_value (some "msa#2025-001".data) = some "MSA#2025-001".data ∧
    "MSA#2025-001".data.take 4 = "MSA#".data ∧
    ("MSA#".data : List Char) ≠ "MSA-".data :=
  ⟨by decide, by decide, by decide⟩

/-- C1 (amended): every non-null value returned by the identifier normalizer
is a literal uppercase `MSA` followed by zero or more separator characters
drawn from `#`, `:`, `-` and whitespace other than space, then 3+ digits,
then optionally a dash or slash and 2+ more digits; every character is fixed
by uppercasing and no character is a space.  Bare-numeric inputs matching the
generic 4-digit dash-or-slash 3-digit pattern are promoted to this form by
prefixing `MSA-`. -/
theorem C1_canonical_shape (x : List Char) (y : List Char)
    (h : _normalize_msa_value (some x) = some y) :
    (∃ seps d1 tail, y = 'M' :: 'S' :: 'A' :: (seps ++ d1 ++ tail) ∧
      (∀ c ∈ seps, isMsaSep c = true ∧ c ≠ ' ') ∧
      (∀ c ∈ d1, isPyDigit c = true) ∧ 3 ≤ d1.length ∧ TailShape tail) ∧
    (∀ c ∈ y, c.toUpper = c ∧ c ≠ ' ') := by
  obtain ⟨⟨seps, d1, tail, hy, hseps, hd1, hlen, htail⟩, hclean⟩ := norm_shape h
  refine ⟨⟨seps, d1, tail, hy, ?_, hd1, hlen, htail⟩, ?_⟩
  · intro c hc
    have hcy : c ∈ y := by
      rw [hy]
      exact List.mem_cons_of_mem _ (List.mem_cons_of_mem _ (List.mem_cons_of_mem _
        (List.mem_append.mpr (Or.inl (List.mem_append.mpr (Or.inl hc))))))
    exact ⟨hseps c hc, (hclean c hcy).1⟩
  · intro c hc
    exact ⟨(hclean c hc).2.2, (hclean c hc).1⟩

/-- C1 witness: the amended shape theorem instantiated at the bare-numeric
input `"2025-001"`, which is promoted to `"MSA-2025-001"`. -/
theorem C1_canonical_shape_witness :
    _normalize_msa_value (some "2025-001".data) = some "MSA-2025-001".data ∧
    (∀ c ∈ "MSA-2025-001".data, c.toUpper = c ∧ c ≠ ' ') :=
  ⟨by decide, (C1_canonical_shape "2025-001".data "MSA-2025-001".data (by decide)).2⟩

/-- C2: the identifier normalizer is idempotent: for every input on which it
returns a non-null result, normalizing that result returns it unchanged. -/
theorem C2_normalize_idempotent (x : Option (List Char)) (y : List Char)
    (h : _normalize_msa_value x = some y) :
    _normalize_msa_value (some y) = some y :=
  (norm_shape h).elim fun hshape hclean => norm_fixes hshape hclean

/-- C2 witness: idempotence instantiated at `"msa#2025-001"`. -/
theorem C2_normalize_idempotent_witness :
    _normalize_msa_value (some "msa#2025-001".data) = some "MSA#2025-001".data ∧
    _normalize_msa_value (some "MSA#2025-001".data) = some "MSA#2025-001".data :=
  ⟨by decide, C2_normalize_idempotent (some "msa#2025-001".data) _ (by decide)⟩

/-- C3 counterexample.  The claim states the normalizer maps
`"MSA 2025-001"` to `"MSA-2025-001"`; it actually returns `"MSA2025-001"`
(the space is deleted and no hyphen is inserted). -/
theorem C3_counterexample :
    _normalize_msa_value (some "MSA 2025-001".data) ≠ some "MSA-2025-001".data ∧
    _normalize_msa_value (some "MSA 2025-001".data) = some "MSA2025-001".data :=
  ⟨by decide, by decide⟩

/-- C3 (amended): concrete normalizer outputs.  `"MSA 2025-001"` yields
`"MSA2025-001"` (space removed, no hyphen inserted), `"msa#2025-001"` yields
`"MSA#2025-001"` (the `#` separator is kept), `"MSA_2025_001"` yields
`"MSA-2025-001"` (underscores become hyphens), `"MSA2025/001"` yields
`"MSA2025/001"` (unchanged), `"2025-001"` yields `"MSA-2025-001"` (generic
numeric promotion), and `"invoice #4471"` yields nothing. -/
theorem C3_concrete_examples :
    _normalize_msa_value (some "MSA 2025-001".data) = some "MSA2025-001".data ∧
    _normalize_msa_value (some "msa#2025-001".data) = some "MSA#2025-001".data ∧
    _normalize_msa_value (some "MSA_2025_001".data) = some "MSA-2025-001".data ∧
    _normalize_msa_value (some "MSA2025/001".data) = some "MSA2025/001".data ∧
    _normalize_msa_value (some "2025-001".data) = some "MSA-2025-001".data ∧
    _normalize_msa_value (some "invoice #4471".data) = none :=
  ⟨by decide, by decide, by decide, by decide, by decide, by decide⟩

/-! ### Claims C4, C7, C8, C9, C10 -/

theorem norm_ne_nil {v : Option (List Char)} {y : List Char}
    (h : _normalize_msa_value v = some y) : y ≠ [] := by
  obtain ⟨⟨seps, d1, tail, hy, _⟩, _⟩ := norm_shape h
  rw [hy]; simp

theorem orElse_none {α : Type} (x : Option α) :
    (x.orElse fun _ => none) = x := by cases x <;> rfl

theorem firstKey_cons (c : Option (List Char)) (rest : List (Option (List Char))) :
    firstKey (c :: rest) = (specCandidate c).orElse fun _ => firstKey rest := by
  have heq : firstKey (c :: rest) =
      if pyTruthyStr c = true then
        (if pyTruthyStr (_normalize_msa_value c) = true
         then _normalize_msa_value c else firstKey rest)
      else firstKey rest := rfl
  rw [heq]
  unfold specCandidate
  by_cases ht : pyTruthyStr c = true
  · rw [if_pos ht, if_pos ht]
    cases hn : _normalize_msa_value c with
    | none => simp [pyTruthyStr, Option.orElse]
    | some s =>
      have hs : pyTruthyStr (some s) = true := by
        have := norm_ne_nil hn
        simp [pyTruthyStr, List.isEmpty_iff, this]
      rw [hs]
      simp [Option.orElse]
  · rw [if_neg ht, if_neg ht]
    simp [Option.orElse]

theorem firstKey_ne_nil {l : List (Option (List Char))} {s : List Char}
    (h : firstKey l = some s) : s ≠ [] := by
  induction l with
  | nil => cases h
  | cons c rest ih =>
    rw [firstKey_cons] at h
    cases hc : specCandidate c with
    | none => rw [hc] at h; simp [Option.orElse] at h; exact ih h
    | some s' =>
      rw [hc] at h
      simp [Option.orElse] at h
      subst h
      unfold specCandidate at hc
      by_cases ht : pyTruthyStr c = true
      · rw [if_pos ht] at hc; exact norm_ne_nil hc
      · rw [if_neg ht] at hc; cases hc

/-- C4: the resolver tries the fields in the fixed order msa_number,
po_number, invoice_number, title, linked_to, file_path, skipping empty
candidates, and returns the first non-null normalization (nothing when no
candidate normalizes); in particular a document with null msa_number,
po_number `"PO-99"` and title `"MSA-2025-777"` resolves to
`"MSA-2025-777"`. -/
theorem C4_resolver_order :
    (∀ doc : Document, _resolve_msa_number doc = specResolve doc) ∧
    _resolve_msa_number exampleResolverDoc = some "MSA-2025-777".data := by
  constructor
  · intro doc
    unfold _resolve_msa_number specResolve
    rw [firstKey_cons, firstKey_cons, firstKey_cons, firstKey_cons, firstKey_cons,
      firstKey_cons]
    have h0 : firstKey [] = none := rfl
    rw [h0, orElse_none]
  · decide

theorem unlinkedTest_iff (d : Document) :
    unlinkedTest d = true ↔
      relevantCategory d.category = true ∧ _resolve_msa_number d = none := by
  unfold unlinkedTest
  rw [Bool.and_eq_true]
  constructor
  · rintro ⟨h1, h2⟩
    refine ⟨h1, ?_⟩
    cases hr : _resolve_msa_number d with
    | none => rfl
    | some s =>
      rw [hr] at h2
      have hne := firstKey_ne_nil hr
      simp [pyTruthyStr, List.isEmpty_iff, hne] at h2
  · rintro ⟨h1, h2⟩
    rw [h2]
    exact ⟨h1, rfl⟩

/-- C7: the unlinked-documents list of the bucketing call is exactly the
(reconciled) documents whose category is one of Client PO, Vendor PO,
Client Invoice, Vendor Invoice and on which the fallback resolver yields
nothing; it coincides with `get_unlinked_documents`; and on an empty document
set both the bucket list and the unlinked list are empty. -/
theorem C7_unlinked_characterization :
    (∀ (docs : List Document) (now : Int) (d : Document),
      d ∈ (get_msa_buckets docs now).2 ↔
        (d ∈ reconciledDocs docs ∧ relevantCategory d.category = true ∧
         _resolve_msa_number d = none)) ∧
    (∀ (docs : List Document) (now : Int),
      (get_msa_buckets docs now).2 = get_unlinked_documents docs now) ∧
    (∀ now : Int, get_msa_buckets [] now = ([], [])) := by
  refine ⟨?_, fun docs now => rfl, fun now => rfl⟩
  intro docs now d
  have h2 : (get_msa_buckets docs now).2 = (reconciledDocs docs).filter unlinkedTest := rfl
  rw [h2, List.mem_filter, unlinkedTest_iff]

/-- C7 witness: the characterization applied to the empty document set and to
the unlinked fixture. -/
theorem C7_unlinked_characterization_witness :
    get_msa_buckets [] 3 = ([], []) ∧
    exampleUnlinkedDoc ∈ (get_msa_buckets [exampleUnlinkedDoc] 3).2 :=
  ⟨C7_unlinked_characterization.2.2 3,
   (C7_unlinked_characterization.1 [exampleUnlinkedDoc] 3 exampleUnlinkedDoc).mpr
     ⟨by decide, by decide, by decide⟩⟩

theorem reconcileTitle_msa (d : Document) :
    ((reconcileTitle d).1).msa_number = d.msa_number := by
  unfold reconcileTitle
  dsimp only []
  split_ifs <;> rfl

/-- C8: for every document whose stored msa_number is a non-null value fixed
by the normalizer, the MSA part of the reconciliation pass leaves the
document unchanged and reports no change, and the full reconciliation leaves
its msa_number intact. -/
theorem C8_canonical_msa_stable (doc : Document) (s : List Char)
    (h1 : doc.msa_number = some s)
    (h2 : _normalize_msa_value (some s) = some s) :
    reconcileMsa doc = (doc, false) ∧
    ((reconcileDoc doc).1).msa_number = doc.msa_number := by
  have hs : pyTruthyStr (some s) = true := by
    have := norm_ne_nil h2
    simp [pyTruthyStr, List.isEmpty_iff, this]
  have hnorm : _normalize_msa_value doc.msa_number = some s := by rw [h1]; exact h2
  have hres : _resolve_msa_number doc = some s := by
    unfold _resolve_msa_number
    rw [firstKey_cons]
    have hcand : specCandidate doc.msa_number = some s := by
      unfold specCandidate
      rw [h1] at hnorm ⊢
      rw [if_pos hs]
      exact hnorm
    rw [hcand]
    simp [Option.orElse]
  have hcond1 : ¬(pyTruthyStr (some s) = true ∧ some s ≠ doc.msa_number) := by
    rintro ⟨_, hne⟩; exact hne h1.symm
  have hcond2 : ¬(pyTruthyStr (some s) = true ∧ doc.msa_number ≠ some s) := by
    rintro ⟨_, hne⟩; exact hne h1
  have hmsa : reconcileMsa doc = (doc, false) := by
    unfold reconcileMsa
    rw [hnorm]
    dsimp only []
    rw [if_neg hcond1]
    dsimp only []
    rw [hres]
    rw [if_neg hcond2]
  refine ⟨hmsa, ?_⟩
  unfold reconcileDoc
  rw [hmsa]
  exact reconcileTitle_msa doc

/-- C8 witness: stability at the canonical fixture document. -/
theorem C8_canonical_msa_stable_witness :
    reconcileMsa exampleCanonicalDoc = (exampleCanonicalDoc, false) ∧
    ((reconcileDoc exampleCanonicalDoc).1).msa_number = exampleCanonicalDoc.msa_number :=
  C8_canonical_msa_stable exampleCanonicalDoc "MSA-2025-001".data (by decide) (by decide)

/-- C9: the alert generator produces exactly one alert per unlinked document,
order preserved, and the k-th alert has id `msa-unlinked-` followed by the
k-th document's id, title `<doc_type> missing MSA link` with doc_type `PO`
exactly when the literal substring `PO` occurs in the category (else
`Invoice`), level `warning`, acknowledged false, and the document's id as
reference. -/
theorem C9_unlinked_alerts (docs : List Document) (now : Int) :
    (generate_unlinked_alerts docs now).length =
      (get_unlinked_documents docs now).length ∧
    ∀ (k : Nat) (a : Alert) (d : Document),
      (generate_unlinked_alerts docs now)[k]? = some a →
      (get_unlinked_documents docs now)[k]? = some d →
      a.id = "msa-unlinked-".data ++ d.id ∧
      a.title = (if containsSub "PO".data (d.category.getD []) then "PO".data
                 else "Invoice".data) ++ " missing MSA link".data ∧
      a.level = "warning".data ∧
      a.acknowledged = false ∧
      a.document_id = d.id := by
  constructor
  · unfold generate_unlinked_alerts
    exact List.length_map _ _
  · intro k a d ha hd
    unfold generate_unlinked_alerts at ha
    rw [List.getElem?_map, hd] at ha
    simp only [Option.map_some'] at ha
    injection ha with ha
    subst ha
    exact ⟨rfl, rfl, rfl, rfl, rfl⟩

/-- C9 witness: the alert produced for the unlinked fixture document. -/
theorem C9_unlinked_alerts_witness :
    (mkUnlinkedAlert 7 exampleUnlinkedDoc).id =
      "msa-unlinked-".data ++ exampleUnlinkedDoc.id ∧
    (mkUnlinkedAlert 7 exampleUnlinkedDoc).title =
      (if containsSub "PO".data (exampleUnlinkedDoc.category.getD [])
       then "PO".data else "Invoice".data) ++ " missing MSA link".data ∧
    (mkUnlinkedAlert 7 exampleUnlinkedDoc).level = "warning".data ∧
    (mkUnlinkedAlert 7 exampleUnlinkedDoc).acknowledged = false ∧
    (mkUnlinkedAlert 7 exampleUnlinkedDoc).document_id = exampleUnlinkedDoc.id :=
  (C9_unlinked_alerts [exampleUnlinkedDoc] 7).2 0
    (mkUnlinkedAlert 7 exampleUnlinkedDoc) exampleUnlinkedDoc
    (by decide) (by decide)

/-- C10: document creation rewrites the stored category to
`Service Agreement` exactly when the requested category is `Client PO` or
`Vendor PO` and the client lowercases to `google llc`, `platform clients` or
`emb global`; otherwise the requested category is stored unchanged; and the
stored msa_number is always the normalization of the supplied one. -/
theorem C10_create_document_rewrite (d : DocumentCreate) (newId : List Char) :
    (((d.category = some "Client PO".data ∨ d.category = some "Vendor PO".data) ∧
      (pyLower (d.client.getD []) = "google llc".data ∨
       pyLower (d.client.getD []) = "platform clients".data ∨
       pyLower (d.client.getD []) = "emb global".data)) →
      (create_document d newId).category = some "Service Agreement".data) ∧
    ((¬((d.category = some "Client PO".data ∨ d.category = some "Vendor PO".data) ∧
      (pyLower (d.client.getD []) = "google llc".data ∨
       pyLower (d.client.getD []) = "platform clients".data ∨
       pyLower (d.client.getD []) = "emb global".data))) →
      (create_document d newId).category = d.category) ∧
    (create_document d newId).msa_number = _normalize_msa_value d.msa_number := by
  refine ⟨?_, ?_, rfl⟩
  · intro h
    unfold create_document
    dsimp only []
    rw [if_pos h]
  · intro h
    unfold create_document
    dsimp only []
    rw [if_neg h]

/-- C10 witness: a Client PO for client `"Google LLC"` is stored as a
Service Agreement with normalized msa_number. -/
theorem C10_create_document_rewrite_witness :
    (create_document exampleCreateRequest "id-1".data).category =
      some "Service Agreement".data ∧
    (create_document exampleCreateRequest "id-1".data).msa_number =
      _normalize_msa_value exampleCreateRequest.msa_number :=
  ⟨(C10_create_document_rewrite exampleCreateRequest "id-1".data).1
     ⟨Or.inl (by decide), Or.inl (by decide)⟩,
   (C10_create_document_rewrite exampleCreateRequest "id-1".data).2.2⟩

/-! ### Claims C5 and C6: the bucket aggregator -/

theorem bool_eq_false {b : Bool} (h : ¬b = true) : b = false := by
  cases b
  · rfl
  · exact absurd rfl h

theorem classifyDoc_rawOk {b : Bucket} (d : Document) (h : RawOk b) :
    RawOk (classifyDoc d b) := by
  unfold classifyDoc
  split_ifs <;> exact h

theorem emptyBucket_rawOk (k : List Char) : RawOk (emptyBucket k) :=
  ⟨rfl, rfl, rfl⟩

theorem emptyBucket_classOk (k : List Char) : ClassOk (emptyBucket k) := by
  refine ⟨?_, ?_, ?_, ?_⟩ <;> (intro d hd; simp [emptyBucket] at hd)

theorem classifyDoc_classOk {b : Bucket} (d : Document) (h : ClassOk b) :
    ClassOk (classifyDoc d b) := by
  obtain ⟨h1, h2, h3, h4⟩ := h
  unfold classifyDoc
  by_cases hA : isAgreementCat d = true
  · rw [if_pos hA]
    refine ⟨?_, h2, h3, h4⟩
    intro x hx
    rcases List.mem_append.mp hx with hx | hx
    · exact h1 x hx
    · have hxd : x = d := by simpa using hx
      subst hxd; exact hA
  · rw [if_neg hA]
    have hA' : isAgreementCat d = false := bool_eq_false hA
    by_cases hP : isPoCat d = true
    · rw [if_pos hP]
      refine ⟨h1, ?_, h3, h4⟩
      intro x hx
      rcases List.mem_append.mp hx with hx | hx
      · exact h2 x hx
      · have hxd : x = d := by simpa using hx
        subst hxd; exact ⟨hA', hP⟩
    · rw [if_neg hP]
      have hP' : isPoCat d = false := bool_eq_false hP
      by_cases hI : isInvoiceCat d = true
      · rw [if_pos hI]
        refine ⟨h1, h2, ?_, h4⟩
        intro x hx
        rcases List.mem_append.mp hx with hx | hx
        · exact h3 x hx
        · have hxd : x = d := by simpa using hx
          subst hxd; exact ⟨hA', hP', hI⟩
      · rw [if_neg hI]
        have hI' : isInvoiceCat d = false := bool_eq_false hI
        refine ⟨h1, h2, h3, ?_⟩
        intro x hx
        rcases List.mem_append.mp hx with hx | hx
        · exact h4 x hx
        · have hxd : x = d := by simpa using hx
          subst hxd; exact ⟨hA', hP', hI'⟩

theorem updateAssoc_inv {P : Bucket → Prop}
    (hcl : ∀ d b, P b → P (classifyDoc d b)) (hemp : ∀ k, P (emptyBucket k)) :
    ∀ (l : List (List Char × Bucket)) (key : List Char) (d : Document),
      (∀ p ∈ l, P p.2) → ∀ p ∈ updateAssoc l key d, P p.2 := by
  intro l
  induction l with
  | nil =>
    intro key d _ p hp
    have hp' : p = (key, classifyDoc d (emptyBucket key)) := by
      simpa [updateAssoc] using hp
    subst hp'
    exact hcl _ _ (hemp key)
  | cons q rest ih =>
    intro key d hl p hp
    obtain ⟨k0, b0⟩ := q
    have heq : updateAssoc ((k0, b0) :: rest) key d =
        if k0 = key then (k0, classifyDoc d b0) :: rest
        else (k0, b0) :: updateAssoc rest key d := rfl
    rw [heq] at hp
    by_cases hk : k0 = key
    · rw [if_pos hk] at hp
      rcases List.mem_cons.mp hp with hp | hp
      · subst hp; exact hcl _ _ (hl (k0, b0) (List.mem_cons_self _ _))
      · exact hl p (List.mem_cons_of_mem _ hp)
    · rw [if_neg hk] at hp
      rcases List.mem_cons.mp hp with hp | hp
      · subst hp; exact hl _ (List.mem_cons_self _ _)
      · exact ih key d (fun r hr => hl r (List.mem_cons_of_mem _ hr)) p hp

theorem assignDoc_inv {P : Bucket → Prop}
    (hcl : ∀ d b, P b → P (classifyDoc d b)) (hemp : ∀ k, P (emptyBucket k))
    {l : List (List Char × Bucket)} {d : Document}
    (hl : ∀ p ∈ l, P p.2) : ∀ p ∈ assignDoc l d, P p.2 := by
  intro p hp
  unfold assignDoc at hp
  cases hbk : bucketKey d with
  | none => rw [hbk] at hp; exact hl p hp
  | some k =>
    rw [hbk] at hp
    dsimp only [] at hp
    by_cases hk : k.isEmpty = true
    · rw [if_pos hk] at hp; exact hl p hp
    · rw [if_neg hk] at hp; exact updateAssoc_inv hcl hemp l k d hl p hp

theorem foldl_inv {P : Bucket → Prop}
    (hcl : ∀ d b, P b → P (classifyDoc d b)) (hemp : ∀ k, P (emptyBucket k)) :
    ∀ (docs : List Document) (l : List (List Char × Bucket)),
      (∀ p ∈ l, P p.2) → ∀ p ∈ List.foldl assignDoc l docs, P p.2 := by
  intro docs
  induction docs with
  | nil => intro l hl p hp; rw [List.foldl_nil] at hp; exact hl p hp
  | cons d ds ih =>
    intro l hl p hp
    rw [List.foldl_cons] at hp
    exact ih (assignDoc l d) (assignDoc_inv hcl hemp hl) p hp

theorem rawBuckets_rawOk {docs : List Document} :
    ∀ p ∈ rawBuckets docs, RawOk p.2 :=
  foldl_inv (fun d b => classifyDoc_rawOk d) emptyBucket_rawOk docs []
    (fun p hp => by simp at hp)

theorem rawBuckets_classOk {docs : List Document} :
    ∀ p ∈ rawBuckets docs, ClassOk p.2 :=
  foldl_inv (fun d b => classifyDoc_classOk d) emptyBucket_classOk docs []
    (fun p hp => by simp at hp)

theorem stats_lists (now : Int) (b : Bucket) :
    (computeBucketStats now b).msa_documents = b.msa_documents ∧
    (computeBucketStats now b).po_documents = b.po_documents ∧
    (computeBucketStats now b).invoice_documents = b.invoice_documents ∧
    (computeBucketStats now b).other_documents = b.other_documents := by
  unfold computeBucketStats
  cases hmin : listMin (b.msa_documents.filterMap Document.due_date) <;>
    exact ⟨rfl, rfl, rfl, rfl⟩

theorem stats_totals (now : Int) (b : Bucket) :
    (computeBucketStats now b).total_msa_value = amountSum b.msa_documents ∧
    (computeBucketStats now b).total_po_value = amountSum b.po_documents ∧
    (computeBucketStats now b).total_invoice_value = amountSum b.invoice_documents := by
  unfold computeBucketStats
  cases hmin : listMin (b.msa_documents.filterMap Document.due_date) <;>
    exact ⟨rfl, rfl, rfl⟩

theorem stats_expiry (now : Int) (b : Bucket) (hraw : RawOk b) :
    (computeBucketStats now b).expires_on =
      listMin (b.msa_documents.filterMap Document.due_date) ∧
    (∀ e, (computeBucketStats now b).expires_on = some e →
      (computeBucketStats now b).days_until_expiry =
        some (Int.fdiv (e - now) 86400) ∧
      ((computeBucketStats now b).expiring_soon = true ↔
        Int.fdiv (e - now) 86400 ≤ 60)) ∧
    ((computeBucketStats now b).expires_on = none →
      (computeBucketStats now b).days_until_expiry = none ∧
      (computeBucketStats now b).expiring_soon = false) := by
  unfold computeBucketStats
  cases hmin : listMin (b.msa_documents.filterMap Document.due_date) with
  | none =>
    dsimp only []
    refine ⟨hraw.1, ?_, fun _ => ⟨hraw.2.1, hraw.2.2⟩⟩
    intro e he
    have he' : b.expires_on = some e := he
    rw [hraw.1] at he'
    cases he'
  | some e0 =>
    dsimp only []
    refine ⟨rfl, ?_, ?_⟩
    · intro e he
      have he' : (some e0 : Option Int) = some e := he
      injection he' with he'
      subst he'
      exact ⟨rfl, by simp⟩
    · intro he
      have he' : (some e0 : Option Int) = none := he
      cases he'

/-- C5: in each bucket, expires_on is the earliest non-null due_date among
the agreement-classified documents (null if there are none); when set,
days_until_expiry is the flooring division of (expires_on - now) by one day,
and expiring_soon holds exactly when that is at most 60, negatives included;
the two fixture documents sharing key `MSA-2025-001` (a Service Agreement due
45 days from now and a Client PO of amount 1000) produce one bucket with one
po document, total_po_value 1000 and expiring_soon true. -/
theorem C5_bucket_expiry :
    (∀ (docs : List Document) (now : Int) (b : Bucket),
      b ∈ (get_msa_buckets docs now).1 →
        b.expires_on = listMin (b.msa_documents.filterMap Document.due_date) ∧
        (∀ e, b.expires_on = some e →
          b.days_until_expiry = some (Int.fdiv (e - now) 86400) ∧
          (b.expiring_soon = true ↔ Int.fdiv (e - now) 86400 ≤ 60)) ∧
        (b.expires_on = none →
          b.days_until_expiry = none ∧ b.expiring_soon = false)) ∧
    ((get_msa_buckets [exampleAgreementDoc, examplePoDoc] 0).1 = [exampleBucket] ∧
     exampleBucket.po_documents.length = 1 ∧
     exampleBucket.total_po_value = 1000 ∧
     exampleBucket.expiring_soon = true ∧
     exampleBucket.days_until_expiry = some 45) := by
  constructor
  · intro docs now b hb
    have hb' : b ∈ List.map (fun p => computeBucketStats now p.2)
        (rawBuckets (reconciledDocs docs)) := hb
    rw [List.mem_map] at hb'
    obtain ⟨p, hp, heq⟩ := hb'
    have hraw : RawOk p.2 := rawBuckets_rawOk p hp
    subst heq
    obtain ⟨hex, hdays, hnone⟩ := stats_expiry now p.2 hraw
    refine ⟨?_, hdays, hnone⟩
    rw [hex, (stats_lists now p.2).1]
  · exact ⟨by decide, by decide, by decide, by decide, by decide⟩

/-- C5 witness: the expiry conclusions instantiated at the fixture bucket. -/
theorem C5_bucket_expiry_witness :
    exampleBucket.expires_on =
      listMin (exampleBucket.msa_documents.filterMap Document.due_date) ∧
    exampleBucket.days_until_expiry =
      some (Int.fdiv ((3888000 : Int) - 0) 86400) ∧
    (exampleBucket.expiring_soon = true ↔
      Int.fdiv ((3888000 : Int) - 0) 86400 ≤ 60) := by
  have h := C5_bucket_expiry.1 [exampleAgreementDoc, examplePoDoc] 0
    exampleBucket (by decide)
  exact ⟨h.1, (h.2.1 3888000 (by decide)).1, (h.2.1 3888000 (by decide)).2⟩

/-- C6: every document of a bucket sits in the sub-list dictated by the
case-insensitive substring tests on its category, applied in the order
"agreement", then "po", then "invoice", else "other" (so membership in a
later list implies the earlier tests failed), and the three bucket totals sum
the amounts of the agreement, po and invoice sub-lists respectively, so
"other" documents contribute to no total. -/
theorem C6_classification_totals :
    ∀ (docs : List Document) (now : Int) (b : Bucket),
      b ∈ (get_msa_buckets docs now).1 →
        ClassOk b ∧
        b.total_msa_value = amountSum b.msa_documents ∧
        b.total_po_value = amountSum b.po_documents ∧
        b.total_invoice_value = amountSum b.invoice_documents := by
  intro docs now b hb
  have hb' : b ∈ List.map (fun p => computeBucketStats now p.2)
      (rawBuckets (reconciledDocs docs)) := hb
  rw [List.mem_map] at hb'
  obtain ⟨p, hp, heq⟩ := hb'
  have hclass : ClassOk p.2 := rawBuckets_classOk p hp
  subst heq
  obtain ⟨hl1, hl2, hl3, hl4⟩ := stats_lists now p.2
  obtain ⟨ht1, ht2, ht3⟩ := stats_totals now p.2
  constructor
  · unfold ClassOk
    rw [hl1, hl2, hl3, hl4]
    exact hclass
  · rw [ht1, ht2, ht3, hl1, hl2, hl3]
    exact ⟨rfl, rfl, rfl⟩

/-- C6 witness: classification and totals at the fixture bucket. -/
theorem C6_classification_totals_witness :
    ClassOk exampleBucket ∧
    exampleBucket.total_po_value = amountSum exampleBucket.po_documents := by
  have h := C6_classification_totals [exampleAgreementDoc, examplePoDoc] 0
    exampleBucket (by decide)
  exact ⟨h.1, h.2.2.1⟩

end DMSDashboard
